import Mathlib

/-!
Shallow embedding of `src/bot.py` (tldr-scribe): a Twitter bot that polls
mentions, extracts a video URL, and (per its helper methods) downloads audio,
transcribes, summarizes, renders an HTML transcript page and replies.

Python strings are modelled as `List Char` (sequences of code points).
External libraries (tweepy, pytube, replicate, hashlib, markdown, the file
system, the clock) are modelled as explicit oracle arguments: an
`Except Err _` oracle outcome models a library call that may raise, and the
embedded functions translate the `try/except` structure of the source.
-/

/-- An exception value raised by a library call (Python `Exception`). -/
structure Err where
  msg : List Char
deriving DecidableEq

/-- Python `str.strip()` whitespace test for the characters the bot handles. -/
def isSpaceCh (c : Char) : Bool :=
  c = ' ' || c = '\t' || c = '\n' || c = '\r' || c = '\x0b' || c = '\x0c'

/-- Python `str.strip()`: remove leading and trailing whitespace. -/
def strip (l : List Char) : List Char :=
  ((l.dropWhile isSpaceCh).reverse.dropWhile isSpaceCh).reverse

/-- Prepend a character to the first piece of a split result. -/
def consHead (c : Char) : List (List Char) → List (List Char)
  | [] => [[c]]
  | p :: ps => (c :: p) :: ps

/-- Python `s.split("\n")` (note `"".split("\n") = [""]`). -/
def linesOf : List Char → List (List Char)
  | [] => [[]]
  | c :: rest => if c = '\n' then [] :: linesOf rest else consHead c (linesOf rest)

/-- Python `sep.join(pieces)`. -/
def joinSep (sep : List Char) : List (List Char) → List Char
  | [] => []
  | [p] => p
  | p :: q :: ps => p ++ sep ++ joinSep sep (q :: ps)

/-- Splitting a string on the two-character separator `"\n\n"`
(Python `s.split("\n\n")`), used to name the paragraphs of the markdown
content built by `format_transcript`. -/
def splitNN : List Char → List (List Char)
  | [] => [[]]
  | [c] => [[c]]
  | c :: d :: rest =>
    if c = '\n' ∧ d = '\n' then [] :: splitNN rest
    else consHead c (splitNN (d :: rest))

/-- A `referenced_tweets` entry of a tweepy mention (field `type`,
e.g. `"replied_to"`). -/
structure RefTweet where
  type : List Char
deriving DecidableEq

/-- A mention returned by `client.get_users_mentions` (`bot.py` uses the
fields `id`, `text` and `referenced_tweets`; `referenced_tweets` is `None`
when the attribute is absent or null). -/
structure Mention where
  id : Nat
  text : List Char
  referenced_tweets : Option (List RefTweet)
deriving DecidableEq

/-- The reply filter of `get_new_mentions` (`bot.py` lines 161-163):
`hasattr(mention, 'referenced_tweets') and mention.referenced_tweets and
any(ref.type == "replied_to" for ref in mention.referenced_tweets)`. -/
def is_reply (m : Mention) : Bool :=
  match m.referenced_tweets with
  | none => false
  | some refs => (!refs.isEmpty) && refs.any (fun r => r.type == "replied_to".data)

/-- Python `max(tweet.id for tweet in mentions.data)` (for a non-empty batch
of `Nat` ids this equals the fold below). -/
def maxIdOf (batch : List Mention) : Nat :=
  (batch.map Mention.id).foldl Nat.max 0

/-- `TLDRBot.get_new_mentions` (`bot.py` lines 140-170). The state is
`last_mention_id : Option Nat`; the `api` argument models the outcome of the
`client.get_users_mentions(... since_id=last_mention_id ...)` call:
`.error` a raised exception (caught, returns `[]`), `.ok none` a `None`
data field, `.ok (some batch)` a raw batch. Returns the new cursor and the
returned mention list. -/
def get_new_mentions (last_mention_id : Option Nat)
    (api : Except Err (Option (List Mention))) : Option Nat × List Mention :=
  match api with
  | .error _ => (last_mention_id, [])
  | .ok none => (last_mention_id, [])
  | .ok (some []) => (last_mention_id, [])
  | .ok (some batch) => (some (maxIdOf batch), batch.filter is_reply)

/-- Concrete mention with id 107 that passes the reply filter. -/
def mention107 : Mention :=
  ⟨107, "please transcribe".data, some [⟨"replied_to".data⟩]⟩

/-- Concrete mention with id 108 that fails the reply filter (no references). -/
def mention108 : Mention :=
  ⟨108, "hello bot".data, none⟩

/-- Concrete mention with id 109 that fails the reply filter (quoted, not a
reply). -/
def mention109 : Mention :=
  ⟨109, "nice video".data, some [⟨"quoted".data⟩]⟩

/-- The raw batch of the C1 scenario: max id 109, only 107 passes the filter. -/
def batch109 : List Mention := [mention107, mention108, mention109]

/-- A raw batch in which no mention passes the reply filter. -/
def batchNoReply : List Mention := [mention108, mention109]

/-- A reply mention with id 110, for a later poll. -/
def mention110 : Mention :=
  ⟨110, "another one".data, some [⟨"replied_to".data⟩]⟩

/-- A reply mention with id 109, used for the ordering counterexample. -/
def mention109r : Mention :=
  ⟨109, "late reply".data, some [⟨"replied_to".data⟩]⟩

/-- A raw batch listed in descending id order (both members are replies). -/
def batchDesc : List Mention := [mention109r, mention107]

theorem mem_snd_get_new_mentions {st : Option Nat} {batch : List Mention}
    {m : Mention} (h : m ∈ (get_new_mentions st (.ok (some batch))).2) :
    m ∈ batch ∧ is_reply m = true := by
  cases batch with
  | nil => simp [get_new_mentions] at h
  | cons b bs =>
    simp only [get_new_mentions] at h
    exact List.mem_filter.mp h

/-- C1: for every non-empty raw batch, `get_new_mentions` advances the
cursor to the maximum id of the raw pre-filter batch; in the concrete
scenario (raw max id 109, only id 107 a reply) it returns `[107]` with
cursor 109, it advances the cursor even when nothing passes the filter, and
any later poll whose raw batch respects the `since_id` bound of the new
cursor can only return ids strictly above that maximum, so 108 and 109 are
never returned again. -/
theorem get_new_mentions_cursor_advance (st : Option Nat)
    (batch later : List Mention) (h : batch ≠ [])
    (hl : ∀ m ∈ later, maxIdOf batch < m.id) :
    (get_new_mentions st (.ok (some batch))).1 = some (maxIdOf batch) ∧
    get_new_mentions (some 100) (.ok (some batch109)) = (some 109, [mention107]) ∧
    get_new_mentions (some 100) (.ok (some batchNoReply)) = (some 109, []) ∧
    (∀ m ∈ (get_new_mentions (some (maxIdOf batch)) (.ok (some later))).2,
      maxIdOf batch < m.id) := by
  refine ⟨?_, by decide, by decide, ?_⟩
  · cases batch with
    | nil => exact absurd rfl h
    | cons b bs => simp [get_new_mentions]
  · intro m hm
    exact hl m (mem_snd_get_new_mentions hm).1

/-- Witness for C1 at the concrete scenario batch and a concrete later poll. -/
theorem get_new_mentions_cursor_advance_w :
    (get_new_mentions (some 100) (.ok (some batch109))).1 = some (maxIdOf batch109) ∧
    get_new_mentions (some 100) (.ok (some batch109)) = (some 109, [mention107]) ∧
    get_new_mentions (some 100) (.ok (some batchNoReply)) = (some 109, []) ∧
    (∀ m ∈ (get_new_mentions (some (maxIdOf batch109)) (.ok (some [mention110]))).2,
      maxIdOf batch109 < m.id) :=
  get_new_mentions_cursor_advance (some 100) batch109 [mention110]
    (by decide) (by decide)

/-- C6 counterexample: for the raw batch `[109r, 107]` (both replies, listed
in descending id order, all ids above the cursor 100) the returned sequence
is `[109r, 107]`, which is not ordered by identifier ascending — the filter
preserves the raw batch's order and never sorts, so the claim's conjunction
fails at this input. -/
theorem get_new_mentions_not_sorted :
    ¬ (List.Pairwise (fun a b : Mention => a.id < b.id)
          (get_new_mentions (some 100) (.ok (some batchDesc))).2 ∧
        (∀ m ∈ (get_new_mentions (some 100) (.ok (some batchDesc))).2,
          is_reply m = true) ∧
        (∀ m ∈ (get_new_mentions (some 100) (.ok (some batchDesc))).2,
          100 < m.id)) := by
  decide

/-- C6 amended: `get_new_mentions` returns the reply-only mentions of the
raw batch as a subsequence, in the raw batch's order; it neither sorts nor
re-checks ids, so ascending order and the strict cursor lower bound hold
exactly when the raw batch already satisfies them (as the `since_id` API
contract provides). -/
theorem get_new_mentions_filter_properties (st : Option Nat) (c : Nat)
    (batch : List Mention)
    (hs : List.Pairwise (fun a b : Mention => a.id < b.id) batch)
    (hc : ∀ m ∈ batch, c < m.id) :
    (∀ m ∈ (get_new_mentions st (.ok (some batch))).2, is_reply m = true) ∧
    (get_new_mentions st (.ok (some batch))).2.Sublist batch ∧
    List.Pairwise (fun a b : Mention => a.id < b.id)
      (get_new_mentions st (.ok (some batch))).2 ∧
    (∀ m ∈ (get_new_mentions st (.ok (some batch))).2, c < m.id) := by
  have hsub : (get_new_mentions st (.ok (some batch))).2.Sublist batch := by
    cases batch with
    | nil => simp [get_new_mentions]
    | cons b bs =>
      simp only [get_new_mentions]
      exact List.filter_sublist _
  refine ⟨?_, hsub, hs.sublist hsub, ?_⟩
  · intro m hm
    exact (mem_snd_get_new_mentions hm).2
  · intro m hm
    exact hc m (mem_snd_get_new_mentions hm).1

/-- Witness for the amended C6 at a concrete ascending batch. -/
theorem get_new_mentions_filter_properties_w :
    (∀ m ∈ (get_new_mentions (some 100) (.ok (some batch109))).2,
      is_reply m = true) ∧
    (get_new_mentions (some 100) (.ok (some batch109))).2.Sublist batch109 ∧
    List.Pairwise (fun a b : Mention => a.id < b.id)
      (get_new_mentions (some 100) (.ok (some batch109))).2 ∧
    (∀ m ∈ (get_new_mentions (some 100) (.ok (some batch109))).2,
      100 < m.id) :=
  get_new_mentions_filter_properties (some 100) 100 batch109
    (by decide) (by decide)

/-- A file system modelled as a partial map from paths to contents. -/
structure FS where
  files : List Char → Option (List Char)

/-- Python `open(filepath, "w")` followed by `f.write(content)`: creates or
overwrites the file at `path`. -/
def writeFileW (fs : FS) (path content : List Char) : FS :=
  ⟨fun p => if p = path then some content else fs.files p⟩

/-- The stripped non-blank lines of the transcript
(`line.strip() for line in transcript.split("\n") if line.strip()`,
`bot.py` line 95). -/
def keptLines (t : List Char) : List (List Char) :=
  ((linesOf t).map strip).filter (fun l => !l.isEmpty)

/-- The markdown content `format_transcript` feeds to the `markdown` library
(`bot.py` line 95): the stripped non-blank lines joined by blank lines. -/
def markdownContentOf (t : List Char) : List Char :=
  joinSep ("\n\n".data) (keptLines t)

/-- Python `summary.replace("•", "*")` (`bot.py` line 96; the pattern is a
single character, so the replacement is a character map). -/
def replaceBullets (s : List Char) : List Char :=
  s.map (fun c => if c = '•' then '*' else c)

/-- `TranscriptFormatter.format_transcript` (`bot.py` lines 93-116).
External collaborators are passed as oracles: `md5hex` is
`hashlib.md5(transcript.encode()).hexdigest()`, `mdToHtml` the `markdown`
library, `template` the fixed `HTML_TEMPLATE.format` call (arguments: title,
date, tweet_url, summary, content), `today` the rendered current date and
`transcript_dir` the configured directory. Returns the updated file system
and the returned filename. -/
def format_transcript (md5hex mdToHtml : List Char → List Char)
    (template : List Char → List Char → List Char → List Char → List Char → List Char)
    (today transcript_dir : List Char) (fs : FS)
    (transcript summary tweet_url : List Char) : FS × List Char :=
  let markdown_content := markdownContentOf transcript
  let summary_content := replaceBullets summary
  let html_content := mdToHtml markdown_content
  let html_summary := mdToHtml summary_content
  let transcript_id := (md5hex transcript).take 10
  let html := template ("Video Transcript".data) today tweet_url html_summary html_content
  let filename := "transcript_".data ++ transcript_id ++ ".html".data
  let filepath := transcript_dir ++ "/".data ++ filename
  (writeFileW fs filepath html, filename)

theorem writeFileW_twice_isSome (fs : FS) (path c1 c2 p : List Char) :
    ((writeFileW (writeFileW fs path c1) path c2).files p).isSome
      = ((writeFileW fs path c1).files p).isSome := by
  unfold writeFileW
  by_cases hp : p = path <;> simp [hp]

/-- C2: the filename returned by `format_transcript` is
`transcript_` ++ (first 10 hex characters of the hash of the transcript) ++
`.html`; it depends on the transcript only (not the summary or the tweet
URL), and re-invoking with the same transcript writes to the same path, so
the file system holds the same set of files afterwards (overwrite, not a
new file). -/
theorem format_transcript_filename_content_addressed
    (md5hex mdToHtml : List Char → List Char)
    (template : List Char → List Char → List Char → List Char → List Char → List Char)
    (today dir : List Char) (fs : FS) (t s1 u1 s2 u2 : List Char) :
    (format_transcript md5hex mdToHtml template today dir fs t s1 u1).2
      = (format_transcript md5hex mdToHtml template today dir
          (format_transcript md5hex mdToHtml template today dir fs t s1 u1).1
          t s2 u2).2 ∧
    (format_transcript md5hex mdToHtml template today dir fs t s1 u1).2
      = "transcript_".data ++ (md5hex t).take 10 ++ ".html".data ∧
    (∀ p, ((format_transcript md5hex mdToHtml template today dir
            (format_transcript md5hex mdToHtml template today dir fs t s1 u1).1
            t s2 u2).1.files p).isSome
          ↔ ((format_transcript md5hex mdToHtml template today dir fs t s1 u1).1.files p).isSome) := by
  refine ⟨rfl, rfl, ?_⟩
  intro p
  simp only [format_transcript]
  rw [writeFileW_twice_isSome]

/-- Comparison definition following the spec's words for C9: paragraphs are
the maximal runs of consecutive non-empty lines, blank lines being the
separators. -/
def specRunsOf (t : List Char) : List (List (List Char)) :=
  ((linesOf t).splitOnP (fun l => l.isEmpty)).filter (fun g => !g.isEmpty)

/-- Comparison definition following the spec's words for C9: each run of
consecutive non-empty lines becomes one paragraph of the markdown content. -/
def specMarkdownContent (t : List Char) : List Char :=
  joinSep ("\n\n".data) ((specRunsOf t).map (joinSep ("\n".data)))

theorem consHead_ne_nil (c : Char) (ls : List (List Char)) :
    consHead c ls ≠ [] := by
  cases ls <;> simp [consHead]

theorem linesOf_ne_nil (t : List Char) : linesOf t ≠ [] := by
  cases t with
  | nil => simp [linesOf]
  | cons c rest =>
    by_cases hc : c = '\n' <;> simp [linesOf, hc, consHead_ne_nil]

theorem mem_linesOf_no_nl {t p : List Char} (hp : p ∈ linesOf t) :
    '\n' ∉ p := by
  induction t generalizing p with
  | nil =>
    simp [linesOf] at hp
    simp [hp]
  | cons c rest ih =>
    by_cases hc : c = '\n'
    · simp only [linesOf, hc, if_pos rfl] at hp
      rcases List.mem_cons.mp hp with h | h
      · simp [h]
      · exact ih h
    · simp only [linesOf, if_neg hc] at hp
      cases hr : linesOf rest with
      | nil => exact absurd hr (linesOf_ne_nil rest)
      | cons q qs =>
        rw [hr] at hp
        simp only [consHead] at hp
        rcases List.mem_cons.mp hp with h | h
        · subst h
          intro hmem
          rcases List.mem_cons.mp hmem with h2 | h2
          · exact hc h2.symm
          · exact ih (hr ▸ List.mem_cons_self q qs) h2
        · exact ih (hr ▸ List.mem_cons_of_mem q h)

theorem mem_strip_subset {x : Char} {l : List Char} (hx : x ∈ strip l) :
    x ∈ l := by
  unfold strip at hx
  rw [List.mem_reverse] at hx
  have h1 : x ∈ (l.dropWhile isSpaceCh).reverse :=
    (List.dropWhile_sublist _).subset hx
  rw [List.mem_reverse] at h1
  exact (List.dropWhile_sublist _).subset h1

theorem mem_keptLines_no_nl {t p : List Char} (hp : p ∈ keptLines t) :
    p ≠ [] ∧ '\n' ∉ p := by
  unfold keptLines at hp
  have h := List.mem_filter.mp hp
  rcases List.mem_map.mp h.1 with ⟨q, hq, rfl⟩
  refine ⟨?_, ?_⟩
  · intro he
    rw [he] at h
    simp at h
  · intro hmem
    exact mem_linesOf_no_nl hq (mem_strip_subset hmem)

theorem splitNN_cons_cons (c d : Char) (rest : List Char)
    (h : ¬(c = '\n' ∧ d = '\n')) :
    splitNN (c :: d :: rest) = consHead c (splitNN (d :: rest)) := by
  simp [splitNN, h]

theorem splitNN_sep (s : List Char) :
    splitNN ('\n' :: '\n' :: s) = [] :: splitNN s := by
  simp [splitNN]

theorem splitNN_no_nl {p : List Char} (h : '\n' ∉ p) : splitNN p = [p] := by
  induction p with
  | nil => simp [splitNN]
  | cons c rest ih =>
    have hc : c ≠ '\n' := by
      intro he
      exact h (he ▸ List.mem_cons_self c rest)
    have hrest : '\n' ∉ rest := fun hm => h (List.mem_cons_of_mem c hm)
    cases rest with
    | nil => simp [splitNN]
    | cons d rest2 =>
      rw [splitNN_cons_cons c d rest2 (fun hcd => hc hcd.1)]
      rw [ih hrest]
      simp [consHead]

theorem splitNN_append {p : List Char} (s : List Char) (h : '\n' ∉ p) :
    splitNN (p ++ '\n' :: '\n' :: s) = p :: splitNN s := by
  induction p with
  | nil => simpa using splitNN_sep s
  | cons c p2 ih =>
    have hc : c ≠ '\n' := by
      intro he
      exact h (he ▸ List.mem_cons_self c p2)
    have h2 : '\n' ∉ p2 := fun hm => h (List.mem_cons_of_mem c hm)
    cases p2 with
    | nil =>
      rw [List.nil_append] at *
      show splitNN (c :: '\n' :: '\n' :: s) = [c] :: splitNN s
      rw [splitNN_cons_cons c '\n' ('\n' :: s) (fun hcd => hc hcd.1)]
      rw [splitNN_sep]
      simp [consHead]
    | cons c2 p3 =>
      show splitNN (c :: c2 :: (p3 ++ '\n' :: '\n' :: s))
        = (c :: c2 :: p3) :: splitNN s
      rw [splitNN_cons_cons c c2 (p3 ++ '\n' :: '\n' :: s)
        (fun hcd => hc hcd.1)]
      have := ih h2
      rw [List.cons_append] at this
      rw [this]
      simp [consHead]

theorem splitNN_joinSep {ps : List (List Char)} (hne : ps ≠ [])
    (h : ∀ p ∈ ps, '\n' ∉ p) :
    splitNN (joinSep ("\n\n".data) ps) = ps := by
  induction ps with
  | nil => exact absurd rfl hne
  | cons p ps2 ih =>
    cases ps2 with
    | nil =>
      simp only [joinSep]
      exact splitNN_no_nl (h p (List.mem_cons_self p []))
    | cons q ps3 =>
      have hp : '\n' ∉ p := h p (List.mem_cons_self p (q :: ps3))
      have hrest := ih (by simp) (fun r hr => h r (List.mem_cons_of_mem p hr))
      have hmain := splitNN_append (joinSep ("\n\n".data) (q :: ps3)) hp
      rw [hrest] at hmain
      simp only [joinSep]
      simpa using hmain

/-- C9 counterexample: for the transcript `"a\nb"` — a single maximal run of
two non-empty lines — the code's markdown content is `"a\n\nb"` (two
paragraphs, one per line), not the single-paragraph `"a\nb"` that splitting
on blank-line-separated runs of non-empty lines would give. -/
theorem markdown_paragraph_counterexample :
    markdownContentOf ("a\nb".data) ≠ specMarkdownContent ("a\nb".data) ∧
    markdownContentOf ("a\nb".data) = "a\n\nb".data ∧
    specMarkdownContent ("a\nb".data) = "a\nb".data ∧
    splitNN (markdownContentOf ("a\nb".data)) = ["a".data, "b".data] := by
  refine ⟨by decide, by decide, ?_, by decide⟩
  decide

/-- C9 amended: `format_transcript` turns every single non-empty line
(stripped) into its own paragraph: splitting the markdown content it builds
on the blank-line separator recovers exactly the stripped non-blank lines of
the transcript, each a single newline-free line. -/
theorem markdown_paragraphs_per_line (t : List Char)
    (h : keptLines t ≠ []) :
    splitNN (markdownContentOf t) = keptLines t ∧
    ∀ p ∈ keptLines t, p ≠ [] ∧ '\n' ∉ p :=
  ⟨splitNN_joinSep h (fun _ hp => (mem_keptLines_no_nl hp).2),
   fun _ hp => mem_keptLines_no_nl hp⟩

/-- Witness for the amended C9 at the transcript `"a\nb"`. -/
theorem markdown_paragraphs_per_line_w :
    splitNN (markdownContentOf ("a\nb".data)) = keptLines ("a\nb".data) ∧
    ∀ p ∈ keptLines ("a\nb".data), p ≠ [] ∧ '\n' ∉ p :=
  markdown_paragraphs_per_line ("a\nb".data) (by decide)

/-- The chunking of `create_summary` (`bot.py` lines 277-278):
`[transcript[i:i+1024] for i in range(0, len(transcript), 1024)]`, i.e.
successive 1024-character slices. Embedded as structural recursion on a
length fuel so that it evaluates in the kernel; `chunksOf` instantiates the
fuel with the transcript's length, which the recursion never exhausts. -/
def chunksOfAux : Nat → List Char → List (List Char)
  | 0, _ => []
  | _, [] => []
  | fuel + 1, c :: rest => ((c :: rest).take 1024) :: chunksOfAux fuel ((c :: rest).drop 1024)

/-- The chunk list of `create_summary` for a given transcript. -/
def chunksOf (t : List Char) : List (List Char) :=
  chunksOfAux t.length t

/-- The per-chunk normalization of `create_summary` (`bot.py` lines
297-300): `summary = output.strip(); if not summary.startswith("•"):
summary = "• " + summary`. -/
def normalize_chunk_summary (out : List Char) : List Char :=
  let s := strip out
  if "•".data.isPrefixOf s then s else "• ".data ++ s

/-- The summarization loop of `create_summary` (`bot.py` lines 280-301):
one remote model call per chunk, in order; a raised exception aborts the
loop (and is caught by the surrounding `try`). `llm` models
`replicate_client.run` on the prompt built from the chunk. -/
def summarize_chunks (llm : List Char → Except Err (List Char)) :
    List (List Char) → Except Err (List (List Char))
  | [] => .ok []
  | c :: cs =>
    match llm c with
    | .error e => .error e
    | .ok out =>
      match summarize_chunks llm cs with
      | .error e => .error e
      | .ok rest => .ok (normalize_chunk_summary out :: rest)

/-- `TLDRBot.create_summary` (`bot.py` lines 273-306): chunk, summarize each
chunk, join with newlines; any exception is caught and `None` returned. -/
def create_summary (llm : List Char → Except Err (List Char))
    (transcript : List Char) : Option (List Char) :=
  match summarize_chunks llm (chunksOf transcript) with
  | .error _ => none
  | .ok summaries => some (joinSep ("\n".data) summaries)

/-- The number of `replicate_client.run` calls `create_summary` issues while
walking the given chunk list (a raised call stops the loop, so it is the
last one counted). -/
def remote_call_count (llm : List Char → Except Err (List Char)) :
    List (List Char) → Nat
  | [] => 0
  | c :: cs =>
    match llm c with
    | .error _ => 1
    | .ok _ => 1 + remote_call_count llm cs

theorem chunksOfAux_nil (fuel : Nat) : chunksOfAux fuel [] = [] := by
  cases fuel <;> rfl

theorem chunksOfAux_length (fuel : Nat) :
    ∀ t : List Char, t.length ≤ fuel →
      (chunksOfAux fuel t).length = (t.length + 1023) / 1024 := by
  induction fuel with
  | zero =>
    intro t ht
    have : t = [] := List.length_eq_zero.mp (Nat.le_zero.mp ht)
    subst this
    rfl
  | succ fuel ih =>
    intro t ht
    cases t with
    | nil => rfl
    | cons c rest =>
      have hlen : ((c :: rest).drop 1024).length = (c :: rest).length - 1024 :=
        List.length_drop 1024 (c :: rest)
      have hfuel : ((c :: rest).drop 1024).length ≤ fuel := by
        rw [hlen]
        simp only [List.length_cons] at ht ⊢
        omega
      simp only [chunksOfAux, List.length_cons]
      rw [ih _ hfuel, hlen]
      simp only [List.length_cons]
      omega

theorem chunksOfAux_flatten (fuel : Nat) :
    ∀ t : List Char, t.length ≤ fuel → (chunksOfAux fuel t).flatten = t := by
  induction fuel with
  | zero =>
    intro t ht
    have : t = [] := List.length_eq_zero.mp (Nat.le_zero.mp ht)
    subst this
    rfl
  | succ fuel ih =>
    intro t ht
    cases t with
    | nil => rfl
    | cons c rest =>
      have hfuel : ((c :: rest).drop 1024).length ≤ fuel := by
        rw [List.length_drop]
        simp only [List.length_cons] at ht ⊢
        omega
      simp only [chunksOfAux, List.flatten_cons]
      rw [ih _ hfuel]
      exact List.take_append_drop 1024 (c :: rest)

theorem chunksOfAux_dropLast_full (fuel : Nat) :
    ∀ t : List Char, t.length ≤ fuel →
      ((chunksOfAux fuel t).dropLast).all (fun c => c.length == 1024) = true := by
  induction fuel with
  | zero =>
    intro t ht
    have : t = [] := List.length_eq_zero.mp (Nat.le_zero.mp ht)
    subst this
    rfl
  | succ fuel ih =>
    intro t ht
    cases t with
    | nil => rfl
    | cons c rest =>
      have hfuel : ((c :: rest).drop 1024).length ≤ fuel := by
        rw [List.length_drop]
        simp only [List.length_cons] at ht ⊢
        omega
      simp only [chunksOfAux]
      cases hd : chunksOfAux fuel ((c :: rest).drop 1024) with
      | nil => rfl
      | cons x xs =>
        have hne : (c :: rest).drop 1024 ≠ [] := by
          intro he
          rw [he, chunksOfAux_nil] at hd
          exact List.noConfusion hd
        have hlong : 1024 < (c :: rest).length := by
          by_contra hle
          exact hne (List.drop_eq_nil_of_le (Nat.le_of_not_lt hle))
        have htake : ((c :: rest).take 1024).length = 1024 := by
          rw [List.length_take]
          omega
        have htail := ih _ hfuel
        rw [hd] at htail
        rw [List.dropLast_cons_of_ne_nil (List.cons_ne_nil x xs)]
        simp only [List.all_cons, htake]
        simpa using htail

theorem summarize_chunks_ok (llm : List Char → List Char) :
    ∀ cs : List (List Char),
      summarize_chunks (fun c => .ok (llm c)) cs
        = .ok (cs.map (fun c => normalize_chunk_summary (llm c))) := by
  intro cs
  induction cs with
  | nil => rfl
  | cons c cs2 ih => simp [summarize_chunks, ih]

theorem remote_call_count_ok (llm : List Char → List Char) :
    ∀ cs : List (List Char),
      remote_call_count (fun c => .ok (llm c)) cs = cs.length := by
  intro cs
  induction cs with
  | nil => rfl
  | cons c cs2 ih =>
    simp only [remote_call_count, ih, List.length_cons]
    omega

/-- C4: `create_summary` splits the transcript of length L into consecutive
chunks — they reassemble to the transcript, every chunk except possibly the
last has exactly 1024 characters, and there are ceil(L/1024) of them — it
issues exactly ceil(L/1024) remote calls (one per chunk, when the model
succeeds), and the returned summary is the newline-join of exactly that many
chunk-summary blocks, one per chunk, in chunk order. -/
theorem create_summary_chunking (llm : List Char → List Char) (t : List Char) :
    (chunksOf t).length = (t.length + 1023) / 1024 ∧
    (chunksOf t).flatten = t ∧
    ((chunksOf t).dropLast).all (fun c => c.length == 1024) = true ∧
    remote_call_count (fun c => .ok (llm c)) (chunksOf t)
      = (t.length + 1023) / 1024 ∧
    create_summary (fun c => .ok (llm c)) t
      = some (joinSep ("\n".data)
          ((chunksOf t).map (fun c => normalize_chunk_summary (llm c)))) := by
  have hlen := chunksOfAux_length t.length t (Nat.le_refl _)
  refine ⟨hlen, chunksOfAux_flatten t.length t (Nat.le_refl _),
    chunksOfAux_dropLast_full t.length t (Nat.le_refl _), ?_, ?_⟩
  · rw [remote_call_count_ok]
    exact hlen
  · unfold create_summary
    rw [summarize_chunks_ok]

theorem linesOf_append_no_nl (pre s : List Char) (h : '\n' ∉ pre) :
    linesOf (pre ++ s) = (pre ++ (linesOf s).headI) :: (linesOf s).tail := by
  induction pre with
  | nil =>
    simp only [List.nil_append]
    cases hs : linesOf s with
    | nil => exact absurd hs (linesOf_ne_nil s)
    | cons q qs => simp
  | cons c pre2 ih =>
    have hc : c ≠ '\n' := by
      intro he
      exact h (he ▸ List.mem_cons_self c pre2)
    have h2 : '\n' ∉ pre2 := fun hm => h (List.mem_cons_of_mem c hm)
    show linesOf (c :: (pre2 ++ s)) = _
    simp only [linesOf, if_neg hc]
    rw [ih h2]
    simp [consHead]

/-- C5 counterexample: the chunk output `"point one\npoint two"` is
normalized to `"• point one\npoint two"` — only the start of the whole
chunk output gets a bullet, so its second line still does not start with
the bullet marker, contradicting the per-line claim. -/
theorem normalize_chunk_not_per_line :
    normalize_chunk_summary ("point one\npoint two".data)
      = "• point one\npoint two".data ∧
    ¬ (∀ l ∈ linesOf (normalize_chunk_summary ("point one\npoint two".data)),
        "•".data.isPrefixOf l = true) := by
  exact ⟨by decide, by decide⟩

/-- C5 amended: `create_summary` normalizes each chunk's output as a whole,
not per line: the output is stripped of surrounding whitespace and `"• "` is
prepended once if the stripped output does not already start with the bullet
marker; output already starting with the marker is returned unchanged
(beyond the stripping), and the lines after the first are never modified. -/
theorem normalize_chunk_first_line_only (out : List Char) :
    "•".data.isPrefixOf (normalize_chunk_summary out) = true ∧
    ("•".data.isPrefixOf (strip out) = true →
      normalize_chunk_summary out = strip out) ∧
    (linesOf (normalize_chunk_summary out)).tail = (linesOf (strip out)).tail := by
  unfold normalize_chunk_summary
  by_cases h : "•".data.isPrefixOf (strip out) = true
  · simp only [h, if_pos rfl]
    exact ⟨h, fun _ => rfl, rfl⟩
  · rw [if_neg (by simpa using h)]
    refine ⟨?_, fun hh => absurd hh h, ?_⟩
    · have : ("• ".data ++ strip out) = '•' :: ' ' :: strip out := rfl
      rw [this]
      simp [List.isPrefixOf]
    · rw [linesOf_append_no_nl ("• ".data) (strip out) (by decide)]
      rfl

/-- Witness for the amended C5 at two concrete chunk outputs. -/
theorem normalize_chunk_first_line_only_w :
    "•".data.isPrefixOf (normalize_chunk_summary ("no bullet here".data)) = true ∧
    normalize_chunk_summary ("• fine".data) = strip ("• fine".data) :=
  ⟨(normalize_chunk_first_line_only ("no bullet here".data)).1,
   (normalize_chunk_first_line_only ("• fine".data)).2.1 (by decide)⟩

/-- The character class of the URL regex in `TLDRBot.run` (`bot.py` line
214): `[a-zA-Z]|[0-9]|[$-_@.&+]|[!*\(\),]|(?:%[0-9a-fA-F][0-9a-fA-F])`.
`[$-_]` is the character range 0x24-0x5F, which contains `% @ . & + * ( ) ,`
and all digits and capitals, and in particular makes the `%hh` alternative
unreachable (a `%` is already consumed by the earlier `[$-_@.&+]` branch),
so the class is an ordinary per-character test. -/
def urlChar (c : Char) : Bool :=
  ('a' ≤ c && c ≤ 'z') || ('A' ≤ c && c ≤ 'Z') ||
  ('0' ≤ c && c ≤ '9') || ('$' ≤ c && c ≤ '_') ||
  c == '@' || c == '.' || c == '&' || c == '+' ||
  c == '!' || c == '*' || c == '(' || c == ')' || c == ','

/-- The part of the URL regex after the scheme name: `://` followed by one
or more `urlChar`s, matched greedily; returns the matched text (including
`://`) and the remainder. -/
def matchSchemeTail : List Char → Option (List Char × List Char)
  | ':' :: '/' :: '/' :: s =>
    match s.takeWhile urlChar with
    | [] => none
    | body => some (':' :: '/' :: '/' :: body, s.dropWhile urlChar)
  | _ => none

/-- Try the URL regex `http[s]?://...+` at the start of the input. If the
input starts with `https` but no `://`-match follows, backtracking to the
`s`-less branch also fails (it would need a `:` where the `s` is), so the
whole attempt fails — mirroring the regex engine. -/
def matchUrlAt : List Char → Option (List Char × List Char)
  | 'h' :: 't' :: 't' :: 'p' :: 's' :: rest =>
    (matchSchemeTail rest).map (fun pr => ("https".data ++ pr.1, pr.2))
  | 'h' :: 't' :: 't' :: 'p' :: rest =>
    (matchSchemeTail rest).map (fun pr => ("http".data ++ pr.1, pr.2))
  | _ => none

/-- `re.findall` scanning for the URL pattern: leftmost match, then continue
after the match's end (fuel = input length; every step consumes at least one
character). -/
def findUrlsAux : Nat → List Char → List (List Char)
  | 0, _ => []
  | _, [] => []
  | fuel + 1, l =>
    match matchUrlAt l with
    | some (m, rest) => m :: findUrlsAux fuel rest
    | none => findUrlsAux fuel l.tail

/-- `re.findall('http[s]?://...', mention.text)` (`bot.py` line 214). -/
def findUrls (l : List Char) : List (List Char) := findUrlsAux l.length l

/-- One observable step of the bot loop (prints, sleeps, and the pipeline
stages the spec names; the embedded loop can only emit the constructors the
source code actually reaches). -/
inductive BotAction where
  | print (msg : List Char)
  | extracted (url : List Char)
  | noUrl (id : Nat)
  | mentionError (id : Nat)
  | pollError
  | sleep (seconds : Nat)
  | fetchAudio (url : List Char)
  | transcribe (path : List Char)
  | summarize
  | formatPage
  | reply (id : Nat)
deriving DecidableEq

/-- The per-mention body of `TLDRBot.run` (`bot.py` lines 209-224): print,
extract URLs from the mention text, and either record the first URL found
(the following "Process video" block is only a placeholder comment in the
source) or record that no URL was found. -/
def process_mention (m : Mention) : List BotAction :=
  let urls := findUrls m.text
  match urls with
  | u :: _ => [.print ("Processing mention: ".data ++ m.text), .extracted u]
  | [] => [.print ("Processing mention: ".data ++ m.text), .noUrl m.id]

/-- The per-mention body under its `try/except` (`bot.py` lines 209-228):
`inj m = some e` models an exception `e` raised while processing `m`; it is
caught, logged, and the loop continues with the next mention. -/
def process_mention_caught (inj : Mention → Option Err) (m : Mention) :
    List BotAction :=
  match inj m with
  | some _ => [.mentionError m.id]
  | none => process_mention m

/-- One iteration of the `while True` loop of `TLDRBot.run` (`bot.py` lines
203-235): poll, process every mention of the batch in order, sleep 60; a
failure of the polling step itself is caught by the outer handler, which
logs and sleeps 60. -/
def run_iteration (inj : Mention → Option Err)
    (poll : Except Err (List Mention)) : List BotAction :=
  match poll with
  | .error _ => [.pollError, .sleep 60]
  | .ok ms => (ms.map (process_mention_caught inj)).flatten ++ [.sleep 60]

/-- The trace of the n-th iteration of the infinite loop, with `polls n` the
outcome of the n-th polling step: the loop is total, every iteration is
reached. -/
def run_trace (inj : Mention → Option Err)
    (polls : Nat → Except Err (List Mention)) (n : Nat) : List BotAction :=
  run_iteration inj (polls n)

/-- The mention of the C3 scenario: text with a URL, a genuine reply. -/
def urlMention : Mention :=
  ⟨201, "@bot transcribe https://video.example/watch?v=abc please".data,
    some [⟨"replied_to".data⟩]⟩

/-- Does this action belong to the fetch/transcribe/summarize/format/reply
part of the pipeline? -/
def isPipelineAction : BotAction → Bool
  | .fetchAudio _ => true
  | .transcribe _ => true
  | .summarize => true
  | .formatPage => true
  | .reply _ => true
  | _ => false

/-- C3 (code bug): for the mention whose text contains
`https://video.example/watch?v=abc`, the loop body only prints and extracts
the first URL — the fetch, transcribe, summarize, format and reply stages
are never reached (the source's "Process video" block is an unimplemented
placeholder comment), so the iteration trace contains no pipeline action at
all. -/
theorem run_never_reaches_pipeline :
    process_mention urlMention
      = [BotAction.print ("Processing mention: ".data ++ urlMention.text),
         BotAction.extracted ("https://video.example/watch?v=abc".data)] ∧
    (run_iteration (fun _ => none) (.ok [urlMention])).all
      (fun a => !isPipelineAction a) = true := by
  exact ⟨by decide, by decide⟩

theorem sublist_flatten_of_mem {α : Type} {l : List α} {L : List (List α)}
    (h : l ∈ L) : l.Sublist L.flatten := by
  induction L with
  | nil => simp at h
  | cons x xs ih =>
    rcases List.mem_cons.mp h with rfl | hx
    · simp only [List.flatten_cons]
      exact List.sublist_append_left l xs.flatten
    · simpa using (ih hx).trans (List.sublist_append_right x xs.flatten)

/-- C8: the bot loop never terminates on error. Every iteration of the
`while True` loop — whatever the injected per-mention failures and the poll
outcome — ends with the fixed 60-second sleep and hands control to the next
iteration; a failing polling step produces exactly a logged error followed
by the 60-second sleep; every mention of a successful batch is attempted (its
caught sub-trace occurs in the iteration trace) regardless of failures of
other mentions; and a mention whose processing raises is logged and the
batch continues. -/
theorem run_loop_resilient (inj : Mention → Option Err)
    (polls : Nat → Except Err (List Mention)) (n : Nat) :
    (run_trace inj polls n).getLast? = some (BotAction.sleep 60) ∧
    (∀ e, polls n = .error e →
      run_trace inj polls n = [BotAction.pollError, BotAction.sleep 60]) ∧
    (∀ ms, polls n = .ok ms → ∀ m ∈ ms,
      (process_mention_caught inj m).Sublist (run_trace inj polls n)) ∧
    (∀ ms, polls n = .ok ms → ∀ m ∈ ms, ∀ e, inj m = some e →
      BotAction.mentionError m.id ∈ run_trace inj polls n) := by
  refine ⟨?_, ?_, ?_, ?_⟩
  · unfold run_trace run_iteration
    cases polls n with
    | error e => rfl
    | ok ms => exact List.getLast?_concat _
  · intro e he
    unfold run_trace run_iteration
    rw [he]
  · intro ms hms m hm
    unfold run_trace run_iteration
    rw [hms]
    have h1 : (process_mention_caught inj m)
        ∈ ms.map (process_mention_caught inj) :=
      List.mem_map_of_mem _ hm
    exact (sublist_flatten_of_mem h1).trans (List.sublist_append_left _ _)
  · intro ms hms m hm e he
    unfold run_trace run_iteration
    rw [hms]
    have h1 : BotAction.mentionError m.id ∈ process_mention_caught inj m := by
      unfold process_mention_caught
      rw [he]
      exact List.mem_cons_self _ _
    have h2 : (process_mention_caught inj m)
        ∈ ms.map (process_mention_caught inj) :=
      List.mem_map_of_mem _ hm
    exact List.mem_append_left _ ((List.mem_flatten).mpr ⟨_, h2, h1⟩)

/-- Witness for C8: a concrete failing poll, and a concrete batch in which
the first mention's processing raises while the second is still attempted. -/
theorem run_loop_resilient_w :
    (run_trace (fun m => if m.id = 108 then some ⟨"boom".data⟩ else none)
        (fun _ => .ok [mention108, mention107]) 0).getLast?
      = some (BotAction.sleep 60) ∧
    run_trace (fun _ => none) (fun _ => .error ⟨"down".data⟩) 0
      = [BotAction.pollError, BotAction.sleep 60] ∧
    (process_mention_caught
        (fun m => if m.id = 108 then some ⟨"boom".data⟩ else none)
        mention107).Sublist
      (run_trace (fun m => if m.id = 108 then some ⟨"boom".data⟩ else none)
        (fun _ => .ok [mention108, mention107]) 0) ∧
    BotAction.mentionError 108
      ∈ run_trace (fun m => if m.id = 108 then some ⟨"boom".data⟩ else none)
          (fun _ => .ok [mention108, mention107]) 0 :=
  ⟨(run_loop_resilient _ _ 0).1,
   (run_loop_resilient _ _ 0).2.1 ⟨"down".data⟩ rfl,
   (run_loop_resilient _ _ 0).2.2.1 [mention108, mention107] rfl mention107
     (by decide),
   by
    have := (run_loop_resilient
      (fun m => if m.id = 108 then some ⟨"boom".data⟩ else none)
      (fun _ => .ok [mention108, mention107]) 0).2.2.2
      [mention108, mention107] rfl mention108 (by decide) ⟨"boom".data⟩
    exact this (by decide)⟩

/-- A pytube media stream (`bot.py` line 244 filters on `only_audio`). -/
structure MediaStream where
  only_audio : Bool
deriving DecidableEq

/-- The external collaborators of `TLDRBot.download_video_audio`: the
`YouTube(video_url)` object (its `.streams`, or the exception the
constructor raises), the `tempfile.mkdtemp()` result, and the outcome of
`audio_stream.download(...)`. -/
structure DownloadOracle where
  yt : List Char → Except Err (List MediaStream)
  temp_dir : List Char
  download_ok : Except Err Unit

/-- `TLDRBot.download_video_audio` (`bot.py` lines 240-253): build the
YouTube object, take the first audio-only stream, download it into a fresh
temp directory and return the path; any exception — including the
`AttributeError` from calling `.download` when no audio-only stream exists
(`first()` returned `None`) — is caught and `None` returned. -/
def download_video_audio (o : DownloadOracle) (video_url : List Char) :
    Option (List Char) :=
  match o.yt video_url with
  | .error _ => none
  | .ok streams =>
    match (streams.filter (fun s => s.only_audio)).head? with
    | none => none
    | some _ =>
      match o.download_ok with
      | .error _ => none
      | .ok _ => some (o.temp_dir ++ "/temp_audio.mp3".data)

/-- Python `d[k]` lookup on a string-keyed dict modelled as an association
list (an absent key raises `KeyError`, which the surrounding `try` of
`transcribe_video` catches — the observable result is `none` either way). -/
def lookupKey (k : List Char) : List (List Char × List Char) → Option (List Char)
  | [] => none
  | (k2, v) :: rest => if k2 = k then some v else lookupKey k rest

/-- `TLDRBot.transcribe_video` (`bot.py` lines 255-271): run the remote
Whisper model (`run` models `replicate_client.run` on the audio file) and
return `output['text']`; any exception is caught and `None` returned. -/
def transcribe_video
    (run : List Char → Except Err (List (List Char × List Char)))
    (audio_path : List Char) : Option (List Char) :=
  match run audio_path with
  | .error _ => none
  | .ok output => lookupKey ("text".data) output

/-- `TLDRBot.save_transcript` (`bot.py` lines 308-316): `fmt_result` models
the `transcript_formatter.format_transcript(...)` call (its returned
filename, or the exception it raises, e.g. on file-write failure) and
`base_url_env` the `BASE_URL` environment variable; any exception is caught
and `None` returned. -/
def save_transcript (fmt_result : Except Err (List Char))
    (base_url_env : Option (List Char)) : Option (List Char) :=
  match fmt_result with
  | .error _ => none
  | .ok filename =>
    some ((base_url_env.getD ("http://localhost:5000".data))
      ++ "/transcript/".data ++ filename)

theorem summarize_chunks_error_of_mem
    (llm : List Char → Except Err (List Char)) :
    ∀ cs : List (List Char), ∀ c ∈ cs, (∃ e, llm c = .error e) →
      ∃ e2, summarize_chunks llm cs = .error e2 := by
  intro cs
  induction cs with
  | nil => intro c hc; simp at hc
  | cons c1 cs2 ih =>
    intro c hc ⟨e, he⟩
    rcases List.mem_cons.mp hc with rfl | hmem
    · exact ⟨e, by simp [summarize_chunks, he]⟩
    · unfold summarize_chunks
      cases h1 : llm c1 with
      | error e1 => exact ⟨e1, rfl⟩
      | ok out =>
        rcases ih c hmem ⟨e, he⟩ with ⟨e2, h2⟩
        exact ⟨e2, by simp [h2]⟩

/-- C7: every pipeline operation catches a failure raised inside it at the
call site and returns an empty-or-`None` failure result instead of
propagating the exception: a raised mentions fetch yields `([], unchanged
cursor)`, a raised video-download (e.g. an unsupported URL given to
`YouTube(...)`) yields `None`, a raised transcription call yields `None`, a
raised model call on any chunk makes `create_summary` return `None`, and a
raised `format_transcript` makes `save_transcript` return `None`. All five
embedded operations are total functions into `Option`/`List` results — no
exception reaches the caller. -/
theorem pipeline_ops_swallow_errors :
    (∀ (e : Err) (st : Option Nat),
      get_new_mentions st (.error e) = (st, [])) ∧
    (∀ (o : DownloadOracle) (url : List Char) (e : Err),
      o.yt url = .error e → download_video_audio o url = none) ∧
    (∀ (run : List Char → Except Err (List (List Char × List Char)))
        (p : List Char) (e : Err),
      run p = .error e → transcribe_video run p = none) ∧
    (∀ (llm : List Char → Except Err (List Char)) (t c : List Char),
      c ∈ chunksOf t → (∃ e, llm c = .error e) →
      create_summary llm t = none) ∧
    (∀ (e : Err) (env : Option (List Char)),
      save_transcript (.error e) env = none) := by
  refine ⟨fun e st => rfl, ?_, ?_, ?_, fun e env => rfl⟩
  · intro o url e he
    unfold download_video_audio
    rw [he]
  · intro run p e he
    unfold transcribe_video
    rw [he]
  · intro llm t c hc hee
    unfold create_summary
    rcases summarize_chunks_error_of_mem llm (chunksOf t) c hc hee with ⟨e2, h2⟩
    rw [h2]

/-- Witness for C7: each operation evaluated at a concrete raised
exception — in particular `download_video_audio` on an unsupported URL whose
`YouTube(...)` constructor raises. -/
theorem pipeline_ops_swallow_errors_w :
    get_new_mentions (some 5) (.error ⟨"rate limited".data⟩) = (some 5, []) ∧
    download_video_audio
      ⟨fun _ => .error ⟨"unsupported url".data⟩, "/tmp/x".data, .ok ()⟩
      ("https://example.com/not-a-video".data) = none ∧
    transcribe_video (fun _ => .error ⟨"api down".data⟩)
      ("/tmp/x/temp_audio.mp3".data) = none ∧
    create_summary (fun _ => .error ⟨"model error".data⟩) ("hello".data) = none ∧
    save_transcript (.error ⟨"disk full".data⟩) none = none :=
  ⟨pipeline_ops_swallow_errors.1 ⟨"rate limited".data⟩ (some 5),
   pipeline_ops_swallow_errors.2.1
     ⟨fun _ => .error ⟨"unsupported url".data⟩, "/tmp/x".data, .ok ()⟩
     ("https://example.com/not-a-video".data) ⟨"unsupported url".data⟩ rfl,
   pipeline_ops_swallow_errors.2.2.1 (fun _ => .error ⟨"api down".data⟩)
     ("/tmp/x/temp_audio.mp3".data) ⟨"api down".data⟩ rfl,
   pipeline_ops_swallow_errors.2.2.2.1 (fun _ => .error ⟨"model error".data⟩)
     ("hello".data) ("hello".data) (by decide)
     ⟨⟨"model error".data⟩, rfl⟩,
   pipeline_ops_swallow_errors.2.2.2.2 ⟨"disk full".data⟩ none⟩

/-- The result of `client.get_tweet(tweet_id, ...)`: the bot only inspects
whether `tweet.includes` contains media. -/
structure TweetLookup where
  has_media : Bool
deriving DecidableEq

/-- `TLDRBot.get_video_url` (`bot.py` lines 172-189): look the tweet up; if
it has media, `pass` (free-tier limitation, nothing happens); return `None`;
on exception return `None`. -/
def get_video_url (get_tweet : Nat → Except Err TweetLookup)
    (tweet_id : Nat) : Option (List Char) :=
  match get_tweet tweet_id with
  | .error _ => none
  | .ok tweet => if tweet.has_media then none else none

/-- C10: `get_video_url` returns `None` for every tweet identifier and every
lookup outcome — the media-inspection path never produces a video URL, so a
video URL can only come from URL substrings of the mention text
(`findUrls`), never from `get_video_url`. -/
theorem get_video_url_always_none
    (get_tweet : Nat → Except Err TweetLookup) (tweet_id : Nat) :
    get_video_url get_tweet tweet_id = none := by
  unfold get_video_url
  cases get_tweet tweet_id with
  | error e => rfl
  | ok tweet => cases h : tweet.has_media <;> simp
